import Mathlib

/-!
Shallow embedding of the lexigon word-puzzle engine (`src/lexigon/game.py`).

Words are modelled as lists of characters (`Word`), Python `set[str]` fields
as duplicate-free lists, Python `dict[str, PrefixTree]` as a function
`Char → Option PrefixTree`, and fallible methods (those that `raise`) as
`Except GameError _`.  The two sources of randomness (`random.choice` /
`random.shuffle`) are modelled by passing the drawn value as an explicit
argument.
-/

namespace Lexi

/-- Words are lists of characters (Python `str`). -/
abbrev Word := List Char

/-- Python error taxonomy: the reason reported by `Lexigon.solve`. -/
inductive ValidationReason where
  | missingMandatoryLetter
  | disallowedCharacter
  | notInWordList
  | tooShort
deriving DecidableEq, Repr

/-- Errors raised by the engine (the spec's error taxonomy). -/
inductive GameError where
  | configurationError
  | validationError (reason : ValidationReason)
  | duplicateMoveError
  | insufficientPointsError
deriving DecidableEq, Repr

/-- Class constant `Lexigon.NUM_OPTIONAL_LETTERS = 6`. -/
def NUM_OPTIONAL_LETTERS : Nat := 6

/-- Class constant `Lexigon.MIN_WORD_LENGTH = 4`. -/
def MIN_WORD_LENGTH : Nat := 4

/-- Class constant `Lexigon.ISOGRAM_BONUS = 10`. -/
def ISOGRAM_BONUS : Int := 10

/-- Class constant `GameState.MAX_POINTS = 50`. -/
def MAX_POINTS : Int := 50

/-- The `Wordlist` dataclass: a corpus of words plus its derived isogram
subset.  Python `set[str]` is modelled as a duplicate-free list. -/
structure Wordlist where
  words : List Word
  isograms : List Word

/-- `Wordlist.make`: derives the isograms (distinct characters, length
`NUM_OPTIONAL_LETTERS + 1`) and fails when none exist. -/
def Wordlist.make (words : List Word) : Except GameError Wordlist :=
  let isograms := words.filter (fun w =>
    decide (w.Nodup ∧ w.length = NUM_OPTIONAL_LETTERS + 1))
  if isograms.isEmpty then .error .configurationError
  else .ok ⟨words, isograms⟩

/-- The `Lexigon` dataclass: one mandatory letter, the optional letters, and
the backing wordlist.  Python's "single character" fields are modelled by
`Char`, which makes the two length-1 checks of `__post_init__` hold by
construction. -/
structure Lexigon where
  mandatory_letter : Char
  optional_letters : List Char
  word_list : Wordlist

/-- The `__post_init__` validation of the `Lexigon` constructor: the
mandatory letter must not be among the optional letters (the two
single-character checks are enforced by the `Char` type). -/
def Lexigon.make (mandatory_letter : Char) (optional_letters : List Char)
    (word_list : Wordlist) : Except GameError Lexigon :=
  if mandatory_letter ∈ optional_letters then .error .configurationError
  else .ok ⟨mandatory_letter, optional_letters, word_list⟩

/-- `Lexigon._evaluate`: `ISOGRAM_BONUS` for isograms, otherwise
`len(word) - MIN_WORD_LENGTH + 1`. -/
def Lexigon.evaluate (l : Lexigon) (word : Word) : Int :=
  if word ∈ l.word_list.isograms then ISOGRAM_BONUS
  else (word.length : Int) - (MIN_WORD_LENGTH : Int) + 1

/-- `Lexigon.solve`: the four validation checks, in source order, followed by
evaluation. -/
def Lexigon.solve (l : Lexigon) (word : Word) : Except GameError Int :=
  if l.mandatory_letter ∉ word then
    .error (.validationError .missingMandatoryLetter)
  else if ¬ (∀ c ∈ word, c ∈ l.optional_letters ++ [l.mandatory_letter]) then
    .error (.validationError .disallowedCharacter)
  else if word ∉ l.word_list.words then
    .error (.validationError .notInWordList)
  else if word.length < MIN_WORD_LENGTH then
    .error (.validationError .tooShort)
  else
    .ok (l.evaluate word)

/-- `Lexigon.possible_words`: the words of the wordlist that `solve` accepts. -/
def Lexigon.possible_words (l : Lexigon) : List Word :=
  l.word_list.words.filter (fun w =>
    match l.solve w with
    | .ok _ => true
    | .error _ => false)

/-- `Lexigon.max_points`: sum of `evaluate` over `possible_words`. -/
def Lexigon.max_points (l : Lexigon) : Int :=
  (l.possible_words.map l.evaluate).sum

/-- `Lexigon.generate_from_word_list`.  `picked` models the outcome of the
random draw: Python builds `picked` by choosing an isogram from the wordlist
and shuffling its characters; the first character becomes the mandatory
letter, the rest the optional letters.  The empty case models the `IndexError`
Python would raise on `picked[0]`. -/
def Lexigon.generate_from_word_list (word_list : Wordlist) (picked : List Char) :
    Except GameError Lexigon :=
  match picked with
  | [] => .error .configurationError
  | m :: rest => Lexigon.make m rest word_list

/-- The `Move` dataclass. -/
structure Move where
  word : Word
  points : Int

/-- The `PrefixTree` dataclass: Python's `children: dict[str, PrefixTree]` is
modelled as a function `Char → Option PrefixTree`, plus the `level` counter. -/
inductive PrefixTree where
  | mk (children : Char → Option PrefixTree) (level : Nat)

/-- Field accessor for the child map. -/
def PrefixTree.children : PrefixTree → Char → Option PrefixTree
  | .mk c _ => c

/-- Field accessor for the depth counter. -/
def PrefixTree.level : PrefixTree → Nat
  | .mk _ l => l

/-- `PrefixTree.insert`: inserts a word character by character; at each level
either descends into the existing child or creates a fresh one-deeper child,
then rebuilds the node with the updated child map (Python's
`{**self.children, **{curr: child}}`). -/
def PrefixTree.insert : PrefixTree → Word → PrefixTree
  | t, [] => t
  | t, curr :: rest =>
    let child := (t.children curr).getD (PrefixTree.mk (fun _ => none) (t.level + 1))
    let child := child.insert rest
    PrefixTree.mk (fun d => if d = curr then some child else t.children d) t.level

/-- `PrefixTree.__contains__`: the empty string is contained at any node;
otherwise follow the child for the first character. -/
def PrefixTree.contains : PrefixTree → Word → Bool
  | _, [] => true
  | t, curr :: rest =>
    match t.children curr with
    | some child => child.contains rest
    | none => false

/-- The `Moves` dataclass: the ordered move record plus the backing tree. -/
structure Moves where
  moves : List Move
  tree : PrefixTree

/-- `Moves.__contains__`: delegates to the prefix tree. -/
def Moves.mem (ms : Moves) (word : Word) : Bool :=
  ms.tree.contains word

/-- `Moves.insert`: appends the move and inserts its word into the tree. -/
def Moves.insert (ms : Moves) (m : Move) : Moves :=
  ⟨ms.moves ++ [m], ms.tree.insert m.word⟩

/-- The `Hint` dataclass: a target word and the number of revealed letters. -/
structure Hint where
  word : Word
  revealed : Nat

/-- `Hint.exhausted`: every letter has been revealed. -/
def Hint.exhausted (h : Hint) : Bool :=
  decide (h.word.length ≤ h.revealed)

/-- `Hint.next`: reveal one more letter. -/
def Hint.next (h : Hint) : Hint :=
  ⟨h.word, h.revealed + 1⟩

/-- The `GameState` dataclass. -/
structure GameState where
  candidate : Word
  lexigon : Lexigon
  moves : Moves
  max_points : Int
  hint : Hint
  penalties : List Int

/-- `GameState.create_from_lexigon`: the initial state for a puzzle. -/
def GameState.create_from_lexigon (l : Lexigon) : GameState :=
  { candidate := []
    lexigon := l
    moves := ⟨[], PrefixTree.mk (fun _ => none) 0⟩
    max_points := min l.max_points MAX_POINTS
    hint := ⟨[], 0⟩
    penalties := [] }

/-- `GameState.current_points`: raw sum of all move points. -/
def GameState.current_points (s : GameState) : Int :=
  (s.moves.moves.map Move.points).sum

/-- `GameState.completed`: raw current points have reached the cap. -/
def GameState.completed (s : GameState) : Bool :=
  decide (s.max_points ≤ s.current_points)

/-- `GameState.leftover_words`: the possible words not yet contained in the
move ledger. -/
def GameState.leftover_words (s : GameState) : List Word :=
  s.lexigon.possible_words.filter (fun w => ! s.moves.mem w)

/-- `GameState.add_letter`: appends one character to the candidate (the
single-character check is enforced by the `Char` type). -/
def GameState.add_letter (s : GameState) (letter : Char) : GameState :=
  { s with candidate := s.candidate ++ [letter] }

/-- `GameState.total_penalty`: sum of recorded penalties. -/
def GameState.total_penalty (s : GameState) : Int :=
  s.penalties.sum

/-- `GameState.request_hint`.  `pick` models `random.choice` over the
leftover words, used only when the current hint is exhausted.  The projected
penalty total is checked before any state is produced. -/
def GameState.request_hint (s : GameState) (pick : Word) :
    Except GameError GameState :=
  let hint0 := if s.hint.exhausted then Hint.mk pick 0 else s.hint
  let hint := hint0.next
  let penalties := s.penalties ++ [(hint.revealed : Int)]
  if s.current_points - penalties.sum < 0 then .error .insufficientPointsError
  else .ok { s with hint := hint, penalties := penalties }

/-- `GameState.add_move`: rejects a candidate already contained in the move
ledger, otherwise solves it; on success records the move, clears candidate
and hint, and recomputes the cap from the receiver's (pre-move) leftover
words, exactly as the source does. -/
def GameState.add_move (s : GameState) : Except GameError GameState :=
  if s.moves.mem s.candidate then .error .duplicateMoveError
  else
    match s.lexigon.solve s.candidate with
    | .error e => .error e
    | .ok points =>
      .ok { s with
        moves := s.moves.insert ⟨s.candidate, points⟩
        candidate := []
        hint := ⟨[], 0⟩
        max_points := min ((s.leftover_words.map s.lexigon.evaluate).sum) MAX_POINTS }

/-- Entering several letters in sequence (the UI's way of building a
candidate). -/
def GameState.addLetters (s : GameState) (cs : List Char) : GameState :=
  cs.foldl GameState.add_letter s

/-- States reachable from a freshly created game by the player-facing
transitions.  `reset` re-enters through `create_from_lexigon` and is covered
by `init`. -/
inductive Reachable : GameState → Prop where
  | init (l : Lexigon) : Reachable (GameState.create_from_lexigon l)
  | step_add_letter {s : GameState} (c : Char) :
      Reachable s → Reachable (s.add_letter c)
  | step_add_move {s s' : GameState} :
      Reachable s → s.add_move = .ok s' → Reachable s'
  | step_request_hint {s s' : GameState} (pick : Word) :
      Reachable s → s.request_hint pick = .ok s' → Reachable s'

/-- Transition closure: `Steps s t` holds when `t` arises from `s` by any
sequence (possibly empty) of the player-facing transitions that stay within
the same game (letter entry, successful submission, successful hint
request). -/
inductive Steps : GameState → GameState → Prop where
  | refl (s : GameState) : Steps s s
  | add_letter {s t : GameState} (c : Char) :
      Steps s t → Steps s (t.add_letter c)
  | add_move {s t t' : GameState} :
      Steps s t → t.add_move = .ok t' → Steps s t'
  | request_hint {s t t' : GameState} (pick : Word) :
      Steps s t → t.request_hint pick = .ok t' → Steps s t'

/-! ### Prefix-tree lemmas -/

/-- The accessor of a constructed node returns its child map. -/
@[simp] lemma PrefixTree.children_mk (f : Char → Option PrefixTree) (lv : Nat) :
    (PrefixTree.mk f lv).children = f := rfl

/-- The freshly created empty node contains exactly the empty word. -/
lemma PrefixTree.contains_empty_node (lv : Nat) (x : Word) :
    (PrefixTree.mk (fun _ => none) lv).contains x = decide (x = []) := by
  cases x with
  | nil => simp [PrefixTree.contains]
  | cons c x' => simp [PrefixTree.contains, PrefixTree.children]

/-- Characterisation of containment after an insertion: a word is contained
in `t.insert w` exactly when it was already contained in `t` or it is a
prefix of `w`. -/
lemma PrefixTree.contains_insert (w : Word) : ∀ (t : PrefixTree) (x : Word),
    (t.insert w).contains x = (t.contains x || decide (x <+: w)) := by
  induction w with
  | nil =>
    intro t x
    cases x with
    | nil => simp [PrefixTree.contains]
    | cons c x' =>
      simp [PrefixTree.insert, List.prefix_nil]
  | cons curr w' ih =>
    intro t x
    cases x with
    | nil => simp [PrefixTree.contains]
    | cons d x' =>
      simp only [PrefixTree.insert, PrefixTree.contains, PrefixTree.children_mk]
      by_cases hd : d = curr
      · subst hd
        simp only [if_pos rfl]
        cases h : t.children d with
        | some ch => simp [h, ih, List.cons_prefix_cons]
        | none =>
          simp [h, ih, PrefixTree.contains_empty_node, List.cons_prefix_cons]
          cases x' with
          | nil => simp
          | cons e x'' => simp
      · simp [hd, List.cons_prefix_cons]

/-- Containment is closed under taking prefixes: any prefix of a contained
word is itself contained. -/
lemma PrefixTree.contains_of_prefix : ∀ (x : Word) (t : PrefixTree) (w : Word),
    t.contains w = true → x <+: w → t.contains x = true := by
  intro x
  induction x with
  | nil => intro t w _ _; simp [PrefixTree.contains]
  | cons c x' ih =>
    intro t w hw hx
    cases w with
    | nil => simp [List.prefix_nil] at hx
    | cons d w' =>
      rw [List.cons_prefix_cons] at hx
      obtain ⟨rfl, hx'⟩ := hx
      simp only [PrefixTree.contains] at hw ⊢
      cases h : t.children c with
      | some ch =>
        rw [h] at hw
        exact ih ch w' hw hx'
      | none => rw [h] at hw; exact absurd hw (by simp)

/-- A word is contained in the tree after it has been inserted. -/
lemma PrefixTree.contains_insert_self (t : PrefixTree) (w : Word) :
    (t.insert w).contains w = true := by
  simp [PrefixTree.contains_insert, List.prefix_refl]

/-- Insertion never removes containment. -/
lemma PrefixTree.contains_mono (t : PrefixTree) (w x : Word)
    (h : t.contains x = true) : (t.insert w).contains x = true := by
  simp [PrefixTree.contains_insert, h]

/-! ### Solve and scoring lemmas -/

/-- Characterisation of a successful `solve`: all four checks pass and the
result is the evaluated score. -/
lemma Lexigon.solve_ok_iff (l : Lexigon) (w : Word) (n : Int) :
    l.solve w = .ok n ↔
      l.mandatory_letter ∈ w ∧
      (∀ c ∈ w, c ∈ l.optional_letters ++ [l.mandatory_letter]) ∧
      w ∈ l.word_list.words ∧
      MIN_WORD_LENGTH ≤ w.length ∧
      n = l.evaluate w := by
  unfold Lexigon.solve
  split_ifs with h1 h2 h3 h4 <;> simp_all
  omega

/-- Membership in `possible_words`: the word comes from the wordlist and
`solve` accepts it. -/
lemma Lexigon.mem_possible_words (l : Lexigon) (w : Word) :
    w ∈ l.possible_words ↔ l.solve w = .ok (l.evaluate w) := by
  unfold Lexigon.possible_words
  rw [List.mem_filter]
  constructor
  · rintro ⟨hw, hok⟩
    cases hs : l.solve w with
    | error e => rw [hs] at hok; simp at hok
    | ok n =>
      rcases (l.solve_ok_iff w n).mp hs with ⟨-, -, -, -, rfl⟩
      rfl
  · intro hs
    rcases (l.solve_ok_iff w _).mp hs with ⟨-, -, hw, -, -⟩
    exact ⟨hw, by simp [hs]⟩

/-- Every possible word scores a non-negative number of points. -/
lemma Lexigon.evaluate_nonneg_of_possible (l : Lexigon) (w : Word)
    (h : w ∈ l.possible_words) : 0 ≤ l.evaluate w := by
  rcases (l.solve_ok_iff w _).mp ((l.mem_possible_words w).mp h) with ⟨-, -, -, hlen, -⟩
  unfold Lexigon.evaluate
  split_ifs with hiso
  · simp [ISOGRAM_BONUS]
  · unfold MIN_WORD_LENGTH at hlen ⊢
    omega

/-- Python's `sum(evaluate(w) for w in leftover_words)`. -/
def GameState.leftover_sum (s : GameState) : Int :=
  (s.leftover_words.map s.lexigon.evaluate).sum

/-- Characterisation of a successful `add_move`: the duplicate check and
`solve` both pass, and the new state is the recorded update. -/
lemma GameState.add_move_ok_iff (s s' : GameState) :
    s.add_move = .ok s' ↔
      s.moves.mem s.candidate = false ∧
      ∃ points, s.lexigon.solve s.candidate = .ok points ∧
        s' = { s with
          moves := s.moves.insert ⟨s.candidate, points⟩
          candidate := []
          hint := ⟨[], 0⟩
          max_points := min s.leftover_sum MAX_POINTS } := by
  unfold GameState.add_move
  by_cases h : s.moves.mem s.candidate
  · simp [h]
  · rw [Bool.not_eq_true] at h
    cases hs : s.lexigon.solve s.candidate with
    | error e => simp [h, hs]
    | ok points =>
      simp only [h, Bool.false_eq_true, if_false, hs, GameState.leftover_sum]
      constructor
      · intro hh
        exact ⟨trivial, points, rfl, (Except.ok.injEq _ _).mp hh.symm⟩
      · rintro ⟨-, p, hp, rfl⟩
        obtain rfl : points = p := (Except.ok.injEq _ _).mp hp
        rfl

/-- The leftover words after a successful move form a sublist of the
leftover words before it. -/
lemma GameState.leftover_sublist_of_add_move (s s' : GameState)
    (h : s.add_move = .ok s') :
    List.Sublist s'.leftover_words s.leftover_words := by
  rcases (s.add_move_ok_iff s').mp h with ⟨-, points, -, rfl⟩
  unfold GameState.leftover_words
  apply List.monotone_filter_right
  intro w hw
  simp only [Bool.not_eq_eq_eq_not, Bool.not_true, Moves.mem, Moves.insert] at hw ⊢
  rcases hcont : PrefixTree.contains s.moves.tree w with _ | _
  · rfl
  · exact absurd (PrefixTree.contains_mono _ s.candidate _ hcont) (by simp [hw])

/-- The leftover-word point total never grows across a successful move. -/
lemma GameState.leftover_sum_le_of_add_move (s s' : GameState)
    (h : s.add_move = .ok s') :
    s'.leftover_sum ≤ s.leftover_sum := by
  have hsub := s.leftover_sublist_of_add_move s' h
  have hlex : s'.lexigon = s.lexigon := by
    rcases (s.add_move_ok_iff s').mp h with ⟨-, points, -, rfl⟩
    rfl
  unfold GameState.leftover_sum
  rw [hlex]
  apply List.Sublist.sum_le_sum (List.Sublist.map _ hsub)
  intro a ha
  rcases List.mem_map.mp ha with ⟨w, hw, rfl⟩
  have hwposs : w ∈ s.lexigon.possible_words :=
    List.mem_of_mem_filter hw
  exact s.lexigon.evaluate_nonneg_of_possible w hwposs

/-- A successful `request_hint` leaves candidate, puzzle, moves and cap
untouched; only hint and penalties change. -/
lemma GameState.request_hint_ok_fields (s : GameState) (pick : Word)
    (s' : GameState) (h : s.request_hint pick = .ok s') :
    s'.candidate = s.candidate ∧ s'.lexigon = s.lexigon ∧
      s'.moves = s.moves ∧ s'.max_points = s.max_points ∧
      0 ≤ s.current_points - s'.penalties.sum := by
  simp only [GameState.request_hint] at h
  split_ifs at h with hex hneg hneg
  · obtain rfl := (Except.ok.injEq _ _).mp h
    exact ⟨rfl, rfl, rfl, rfl, by dsimp only; omega⟩
  · obtain rfl := (Except.ok.injEq _ _).mp h
    exact ⟨rfl, rfl, rfl, rfl, by dsimp only; omega⟩

/-- The key state invariant: the cap never exceeds `MAX_POINTS`, and it
always dominates `min(leftover_sum, MAX_POINTS)` (it lags at most one move
behind the leftover total). -/
lemma GameState.reachable_invariant {s : GameState} (h : Reachable s) :
    s.max_points ≤ MAX_POINTS ∧ min s.leftover_sum MAX_POINTS ≤ s.max_points := by
  induction h with
  | init l =>
    constructor
    · exact min_le_right _ _
    · apply min_le_min _ (le_refl MAX_POINTS)
      unfold GameState.leftover_sum GameState.leftover_words Lexigon.max_points
      apply List.Sublist.sum_le_sum
      · exact List.Sublist.map _ (List.filter_sublist _)
      · intro a ha
        rcases List.mem_map.mp ha with ⟨w, hw, rfl⟩
        exact Lexigon.evaluate_nonneg_of_possible _ w hw
  | step_add_letter c hr ih => exact ih
  | step_add_move hr hok ih =>
    rename_i s₀ s₁
    have hsum := s₀.leftover_sum_le_of_add_move s₁ hok
    rcases (s₀.add_move_ok_iff s₁).mp hok with ⟨-, points, -, rfl⟩
    constructor
    · exact min_le_right _ _
    · exact le_trans (min_le_min hsum (le_refl MAX_POINTS)) (le_refl _)
  | step_request_hint pick hr hok ih =>
    rename_i s₀ s₁
    rcases s₀.request_hint_ok_fields pick s₁ hok with ⟨-, hlex, hmoves, hmax, -⟩
    have hleft : s₁.leftover_sum = s₀.leftover_sum := by
      unfold GameState.leftover_sum GameState.leftover_words Moves.mem
      rw [hlex, hmoves]
    rw [hmax, hleft]
    exact ih

/-- Fields of a state after entering a sequence of letters: only the
candidate changes, by appending the letters. -/
lemma GameState.addLetters_fields (cs : List Char) : ∀ (s : GameState),
    (s.addLetters cs).candidate = s.candidate ++ cs ∧
      (s.addLetters cs).moves = s.moves ∧
      (s.addLetters cs).lexigon = s.lexigon ∧
      (s.addLetters cs).max_points = s.max_points := by
  induction cs with
  | nil => intro s; simp [GameState.addLetters]
  | cons c cs ih =>
    intro s
    have h := ih (s.add_letter c)
    simp only [GameState.addLetters, List.foldl_cons] at h ⊢
    refine ⟨?_, h.2.1, h.2.2.1, h.2.2.2⟩
    rw [h.1]
    simp [GameState.add_letter]

/-- Ledger containment persists along every transition: once a word is
contained in the move ledger, it stays contained in every later state of
the same game. -/
lemma GameState.mem_of_steps {s t : GameState} (w : Word) (h : Steps s t)
    (hw : s.moves.mem w = true) : t.moves.mem w = true := by
  induction h with
  | refl => exact hw
  | add_letter c hst ih => simpa [GameState.add_letter] using ih
  | add_move hst hok ih =>
    rcases (GameState.add_move_ok_iff _ _).mp hok with ⟨-, p, -, rfl⟩
    dsimp only
    simp only [Moves.mem, Moves.insert] at ih ⊢
    exact PrefixTree.contains_mono _ _ _ ih
  | request_hint pick hst hok ih =>
    rcases GameState.request_hint_ok_fields _ pick _ hok with ⟨-, -, hmoves, -, -⟩
    rw [hmoves]
    exact ih

/-! ### Concrete example data used by witnesses and counterexamples -/

/-- A small wordlist: one seven-letter isogram plus two shorter words. -/
def exWords : List Word :=
  [['a','b','c','d','e','f','g'], ['a','b','c','d'], ['a','b','c','d','e']]

/-- The wordlist built from `exWords` (its isogram set is the singleton
`abcdefg`). -/
def exWordlist : Wordlist :=
  match Wordlist.make exWords with
  | .ok wl => wl
  | .error _ => ⟨[], []⟩

/-- A puzzle over `exWordlist`: mandatory letter `a`, optional `b..g`. -/
def exLexigon : Lexigon :=
  ⟨'a', ['b','c','d','e','f','g'], exWordlist⟩

/-- The freshly created game state. -/
def exS0 : GameState := GameState.create_from_lexigon exLexigon

/-- The state after typing the candidate `abcd`. -/
def exS1 : GameState := exS0.addLetters ['a','b','c','d']

/-- The state after submitting `abcd` (the fallback branch is unreachable:
the submission succeeds). -/
def exS2 : GameState :=
  match exS1.add_move with
  | .ok t => t
  | .error _ => exS0

/-- The state after additionally typing the candidate `abcde`. -/
def exS3 : GameState := exS2.addLetters ['a','b','c','d','e']

/-- The state after submitting `abcde` on top of `exS3` (the fallback branch
is unreachable: the submission succeeds). -/
def exS3b : GameState :=
  match exS3.add_move with
  | .ok t => t
  | .error _ => exS0

/-- The hint target drawn in the example. -/
def exPick : Word := ['a','b','c','d','e']

/-- The state after a successful hint request on `exS2` (the fallback branch
is unreachable: the request succeeds). -/
def exS4 : GameState :=
  match exS2.request_hint exPick with
  | .ok t => t
  | .error _ => exS2

/-- The state `exS1` is reachable: create, then type `a`, `b`, `c`, `d`. -/
lemma reachable_exS1 : Reachable exS1 :=
  Reachable.step_add_letter 'd' (Reachable.step_add_letter 'c'
    (Reachable.step_add_letter 'b' (Reachable.step_add_letter 'a'
      (Reachable.init exLexigon))))

/-- The state `exS2` is reachable: submit the typed candidate `abcd`. -/
lemma reachable_exS2 : Reachable exS2 :=
  Reachable.step_add_move reachable_exS1 rfl

/-! ### Claim theorems -/

/-- C9: inserting a move into a `Moves` ledger and then checking containment
of that exact word on the resulting ledger returns true. -/
theorem claim_C9_moves_round_trip (ms : Moves) (m : Move) :
    (ms.insert m).mem m.word = true := by
  unfold Moves.mem Moves.insert
  exact PrefixTree.contains_insert_self _ _

/-- C10: whenever the candidate is the empty string, `add_move` fails with
`DuplicateMoveError` — even with no recorded moves — because the empty word
is contained in every prefix tree, so the validation of `solve` is never
reached; moreover the initial state and every state immediately after a
successful `add_move` have an empty candidate. -/
theorem claim_C10_empty_candidate (s s' : GameState) (l : Lexigon) :
    (s.candidate = [] → s.add_move = .error .duplicateMoveError) ∧
    (GameState.create_from_lexigon l).candidate = [] ∧
    (s.add_move = .ok s' → s'.candidate = []) := by
  refine ⟨?_, rfl, ?_⟩
  · intro hc
    unfold GameState.add_move
    rw [hc]
    simp [Moves.mem, PrefixTree.contains]
  · intro h
    rcases (s.add_move_ok_iff s').mp h with ⟨-, p, -, rfl⟩
    rfl

/-- C10 witness: the freshly created example state rejects submission with
`DuplicateMoveError`, and the state after a successful submission has an
empty candidate. -/
theorem claim_C10_witness :
    exS0.add_move = .error .duplicateMoveError ∧ exS2.candidate = [] :=
  ⟨(claim_C10_empty_candidate exS0 exS0 exLexigon).1 rfl,
   (claim_C10_empty_candidate exS1 exS2 exLexigon).2.2 rfl⟩

/-- C7: `completed` holds exactly when the raw `current_points` — the plain
sum of move points — has reached `max_points`; penalties play no role in
either value, so completion ignores the penalty-adjusted effective score. -/
theorem claim_C7_completed (s : GameState) (p : List Int) :
    (s.completed = true ↔ s.max_points ≤ s.current_points) ∧
    s.current_points = (s.moves.moves.map Move.points).sum ∧
    ({ s with penalties := p } : GameState).completed = s.completed ∧
    ({ s with penalties := p } : GameState).current_points = s.current_points := by
  refine ⟨?_, rfl, rfl, rfl⟩
  simp [GameState.completed]

/-- C6: `evaluate` depends only on the word and the backing wordlist;
isograms score `ISOGRAM_BONUS`, every other word scores
`length - MIN_WORD_LENGTH + 1`, so a 4-letter non-isogram scores 1 and a
5-letter non-isogram scores 2. -/
theorem claim_C6_evaluate (l₁ l₂ : Lexigon) (w : Word) :
    (l₁.word_list = l₂.word_list → l₁.evaluate w = l₂.evaluate w) ∧
    (w ∈ l₁.word_list.isograms → l₁.evaluate w = ISOGRAM_BONUS) ∧
    (w ∉ l₁.word_list.isograms →
      l₁.evaluate w = (w.length : Int) - (MIN_WORD_LENGTH : Int) + 1) ∧
    (w ∉ l₁.word_list.isograms → w.length = 4 → l₁.evaluate w = 1) ∧
    (w ∉ l₁.word_list.isograms → w.length = 5 → l₁.evaluate w = 2) := by
  unfold Lexigon.evaluate
  refine ⟨?_, ?_, ?_, ?_, ?_⟩
  · intro h; rw [h]
  · intro h; rw [if_pos h]
  · intro h; rw [if_neg h]
  · intro h h4; rw [if_neg h, h4]; simp [MIN_WORD_LENGTH]
  · intro h h5; rw [if_neg h, h5]; simp [MIN_WORD_LENGTH]

/-- C6 witness: the example isogram scores the bonus and the 4-letter word
`abcd` scores one point. -/
theorem claim_C6_witness :
    exLexigon.evaluate ['a','b','c','d','e','f','g'] = ISOGRAM_BONUS ∧
    exLexigon.evaluate ['a','b','c','d'] = 1 :=
  ⟨(claim_C6_evaluate exLexigon exLexigon _).2.1 (by decide),
   (claim_C6_evaluate exLexigon exLexigon _).2.2.2.1 (by decide) (by decide)⟩

/-- C3: `solve` fails with a validation error exactly when one of the four
checks fails, the checks are evaluated in source order — mandatory letter,
allowed characters, wordlist membership, minimum length — with the first
failing check determining the reported reason, and when all pass it returns
the evaluated score. -/
theorem claim_C3_solve_checks (l : Lexigon) (w : Word) :
    (l.solve w = .error (.validationError .missingMandatoryLetter) ↔
      l.mandatory_letter ∉ w) ∧
    (l.solve w = .error (.validationError .disallowedCharacter) ↔
      l.mandatory_letter ∈ w ∧
      ¬ (∀ c ∈ w, c ∈ l.optional_letters ++ [l.mandatory_letter])) ∧
    (l.solve w = .error (.validationError .notInWordList) ↔
      l.mandatory_letter ∈ w ∧
      (∀ c ∈ w, c ∈ l.optional_letters ++ [l.mandatory_letter]) ∧
      w ∉ l.word_list.words) ∧
    (l.solve w = .error (.validationError .tooShort) ↔
      l.mandatory_letter ∈ w ∧
      (∀ c ∈ w, c ∈ l.optional_letters ++ [l.mandatory_letter]) ∧
      w ∈ l.word_list.words ∧ w.length < MIN_WORD_LENGTH) ∧
    ((∃ e, l.solve w = .error e) ↔
      ¬ (l.mandatory_letter ∈ w ∧
         (∀ c ∈ w, c ∈ l.optional_letters ++ [l.mandatory_letter]) ∧
         w ∈ l.word_list.words ∧ MIN_WORD_LENGTH ≤ w.length)) ∧
    (l.solve w = .ok (l.evaluate w) ↔
      l.mandatory_letter ∈ w ∧
      (∀ c ∈ w, c ∈ l.optional_letters ++ [l.mandatory_letter]) ∧
      w ∈ l.word_list.words ∧ MIN_WORD_LENGTH ≤ w.length) := by
  unfold Lexigon.solve
  split_ifs with h1 h2 h3 h4 <;> simp_all

/-- C4: a successful `request_hint` never leaves the effective score
`current_points - total_penalty` negative, and a failing call reports
`InsufficientPointsError`, which happens precisely because the projected
penalty total (including this hint) would drive the effective score
negative; on failure no new state is produced, so the caller's state is
unchanged. -/
theorem claim_C4_hint_safety (s : GameState) (pick : Word) :
    (∀ s', s.request_hint pick = .ok s' →
      0 ≤ s'.current_points - s'.total_penalty) ∧
    (∀ e, s.request_hint pick = .error e →
      e = .insufficientPointsError ∧
      s.current_points -
        (s.penalties ++
          [((((if s.hint.exhausted then Hint.mk pick 0 else s.hint).next).revealed : Nat) : Int)]).sum < 0) := by
  constructor
  · intro s' h
    rcases s.request_hint_ok_fields pick s' h with ⟨-, -, hmoves, -, hpen⟩
    have hcur : s'.current_points = s.current_points := by
      unfold GameState.current_points
      rw [hmoves]
    unfold GameState.total_penalty
    rw [hcur]
    exact hpen
  · intro e h
    simp only [GameState.request_hint] at h
    split_ifs at h with hex hneg hneg
    · obtain rfl := (Except.error.injEq _ _).mp h
      exact ⟨rfl, by rw [if_pos hex]; exact hneg⟩
    · obtain rfl := (Except.error.injEq _ _).mp h
      exact ⟨rfl, by rw [if_neg hex]; exact hneg⟩

/-- C4 witness: after scoring one point the example hint request succeeds
with effective score zero, and on the fresh zero-point state the request
fails with `InsufficientPointsError` because the projected total is
negative. -/
theorem claim_C4_witness :
    (0 ≤ exS4.current_points - exS4.total_penalty) ∧
    (GameError.insufficientPointsError = GameError.insufficientPointsError ∧
      exS0.current_points -
        (exS0.penalties ++
          [((((if exS0.hint.exhausted then Hint.mk exPick 0 else exS0.hint).next).revealed : Nat) : Int)]).sum < 0) :=
  ⟨(claim_C4_hint_safety exS2 exPick).1 exS4 rfl,
   (claim_C4_hint_safety exS0 exPick).2 .insufficientPointsError rfl⟩

/-- C2 is false on the code: the ledger's trie check accepts the prefixes
of inserted words, so a strict extension of a found word is not thereby
reported as already used.  Concretely, after the word `abcd` has been
accepted by `add_move`, submitting the strict extension `abcde` is not
flagged as a duplicate — the submission succeeds. -/
theorem claim_C2_counterexample :
    exS1.add_move = .ok exS2 ∧
    exS1.candidate = ['a','b','c','d'] ∧
    exS3.candidate = ['a','b','c','d'] ++ ['e'] ∧
    exS3.add_move = .ok exS3b ∧
    exS3.add_move ≠ .error .duplicateMoveError := by
  refine ⟨rfl, rfl, rfl, rfl, ?_⟩
  rw [show exS3.add_move = .ok exS3b from rfl]
  simp

/-- C2 amended: in every GameState in which some word `w` was previously
accepted by `add_move` — that is, in the accepting state and in every state
reached from it by any further sequence of transitions — a candidate that
is a prefix of `w` (the word itself or a shorter prefix of it) fails
`add_move` with `DuplicateMoveError`, because containment delegates to the
prefix tree and the tree reports every prefix of an inserted word as
contained. -/
theorem claim_C2_amended (s₀ s₁ s : GameState) (h : s₀.add_move = .ok s₁)
    (hs : Steps s₁ s) (hx : s.candidate <+: s₀.candidate) :
    s.add_move = .error .duplicateMoveError := by
  have hmem₁ : s₁.moves.mem s₀.candidate = true := by
    rcases (s₀.add_move_ok_iff s₁).mp h with ⟨-, p, -, rfl⟩
    unfold Moves.mem Moves.insert
    exact PrefixTree.contains_insert_self _ _
  have hmem : s.moves.mem s₀.candidate = true :=
    GameState.mem_of_steps s₀.candidate hs hmem₁
  have hcand : s.moves.mem s.candidate = true := by
    unfold Moves.mem at hmem ⊢
    exact PrefixTree.contains_of_prefix _ _ _ hmem hx
  unfold GameState.add_move
  rw [if_pos hcand]

/-- C2 amended witness: after `abcd` is accepted and a hint is requested,
retyping the prefix `ab` and submitting fails with `DuplicateMoveError`. -/
theorem claim_C2_amended_witness :
    (exS4.addLetters ['a','b']).add_move = .error .duplicateMoveError :=
  claim_C2_amended exS1 exS2 (exS4.addLetters ['a','b']) rfl
    (Steps.add_letter 'b' (Steps.add_letter 'a'
      (Steps.request_hint exPick (Steps.refl exS2) rfl)))
    (by decide)

/-- C1 is false on the code: `add_move` recomputes the cap from the
receiver's leftover words, which still include the word being submitted.
In the reachable example state right after accepting `abcd`, `max_points`
is 13 while `min(sum of evaluate over the new state's leftover words,
MAX_POINTS)` is only 12, so the cap exceeds what remains achievable. -/
theorem claim_C1_counterexample :
    Reachable exS2 ∧
    exS2.max_points = 13 ∧
    min exS2.leftover_sum MAX_POINTS = 12 ∧
    ¬ exS2.max_points ≤ min exS2.leftover_sum MAX_POINTS :=
  ⟨reachable_exS2, by decide, by decide, by decide⟩

/-- C1 amended: after every successful `add_move` the new `max_points`
equals `min(sum of evaluate over the PREVIOUS state's leftover words,
MAX_POINTS)` — the pre-move leftovers, which still contain the submitted
word — so it never exceeds `MAX_POINTS`, and the leftover total itself is
non-increasing; the cap may therefore exceed the sum over the new state's
leftover words. -/
theorem claim_C1_amended (s s' : GameState) (h : s.add_move = .ok s') :
    s'.max_points = min s.leftover_sum MAX_POINTS ∧
    s'.max_points ≤ MAX_POINTS ∧
    s'.leftover_sum ≤ s.leftover_sum := by
  have hsum := s.leftover_sum_le_of_add_move s' h
  rcases (s.add_move_ok_iff s').mp h with ⟨-, p, -, rfl⟩
  exact ⟨rfl, min_le_right _ _, hsum⟩

/-- C1 amended witness: the example transition from `exS1` to `exS2`. -/
theorem claim_C1_amended_witness :
    exS2.max_points = min exS1.leftover_sum MAX_POINTS ∧
    exS2.max_points ≤ MAX_POINTS ∧
    exS2.leftover_sum ≤ exS1.leftover_sum :=
  claim_C1_amended exS1 exS2 rfl

/-- C5: in every reachable state `max_points` is at most
`MAX_POINTS = 50`, and every successful `add_move` from a reachable state
yields a state whose `max_points` does not exceed the previous one. -/
theorem claim_C5_monotone (s s' : GameState) (h : Reachable s) :
    s.max_points ≤ MAX_POINTS ∧ MAX_POINTS = 50 ∧
    (s.add_move = .ok s' → s'.max_points ≤ s.max_points) := by
  obtain ⟨h50, hmin⟩ := GameState.reachable_invariant h
  refine ⟨h50, rfl, ?_⟩
  intro hok
  have hsum := s.leftover_sum_le_of_add_move s' hok
  rcases (s.add_move_ok_iff s').mp hok with ⟨-, p, -, rfl⟩
  exact hmin

/-- C5 witness: the example transition from the reachable `exS1` to `exS2`
keeps the cap at 13 ≤ 50. -/
theorem claim_C5_witness :
    exS1.max_points ≤ MAX_POINTS ∧ MAX_POINTS = 50 ∧
    exS2.max_points ≤ exS1.max_points := by
  obtain ⟨ha, hb, hc⟩ := claim_C5_monotone exS1 exS2 reachable_exS1
  exact ⟨ha, hb, hc rfl⟩

/-- Membership in the isogram set of a successfully built wordlist means
the word has pairwise-distinct characters and length
`NUM_OPTIONAL_LETTERS + 1`. -/
lemma Wordlist.make_ok_isograms (ws : List Word) (wl : Wordlist)
    (h : Wordlist.make ws = .ok wl) (w : Word) (hw : w ∈ wl.isograms) :
    w.Nodup ∧ w.length = NUM_OPTIONAL_LETTERS + 1 := by
  simp only [Wordlist.make] at h
  split_ifs at h with he
  obtain rfl := (Except.ok.injEq _ _).mp h
  have hm := List.mem_filter.mp hw
  simpa using hm.2

/-- C8: for any wordlist successfully built by `make`, any chosen isogram
from it and any permutation of that isogram's characters,
`generate_from_word_list` returns a Lexigon whose mandatory letter together
with its optional letters partitions the chosen isogram exactly — no
repeated letters, and the mandatory letter not among the optional ones. -/
theorem claim_C8_generate (ws : List Word) (wl : Wordlist) (chosen : Word)
    (picked : List Char) (hmk : Wordlist.make ws = .ok wl)
    (hch : chosen ∈ wl.isograms) (hperm : picked.Perm chosen) :
    ∃ l, Lexigon.generate_from_word_list wl picked = .ok l ∧
      l.word_list = wl ∧
      l.mandatory_letter :: l.optional_letters = picked ∧
      (l.mandatory_letter :: l.optional_letters).Perm chosen ∧
      (l.mandatory_letter :: l.optional_letters).Nodup ∧
      l.mandatory_letter ∉ l.optional_letters := by
  obtain ⟨hnodup, hlen⟩ := Wordlist.make_ok_isograms ws wl hmk chosen hch
  have hpnodup : picked.Nodup := hperm.symm.nodup hnodup
  have hplen : picked.length = chosen.length := hperm.length_eq
  cases picked with
  | nil =>
    rw [hlen] at hplen
    exact absurd hplen.symm (by simp [NUM_OPTIONAL_LETTERS])
  | cons m rest =>
    have hm : m ∉ rest := (List.nodup_cons.mp hpnodup).1
    refine ⟨⟨m, rest, wl⟩, ?_, rfl, rfl, hperm, hpnodup, hm⟩
    unfold Lexigon.generate_from_word_list Lexigon.make
    exact if_neg hm

/-- C8 witness: generating from the example wordlist with the chosen
isogram `abcdefg` shuffled to `gabcdef`. -/
theorem claim_C8_witness :
    ∃ l, Lexigon.generate_from_word_list exWordlist ['g','a','b','c','d','e','f'] = .ok l ∧
      l.word_list = exWordlist ∧
      l.mandatory_letter :: l.optional_letters = ['g','a','b','c','d','e','f'] ∧
      (l.mandatory_letter :: l.optional_letters).Perm ['a','b','c','d','e','f','g'] ∧
      (l.mandatory_letter :: l.optional_letters).Nodup ∧
      l.mandatory_letter ∉ l.optional_letters :=
  claim_C8_generate exWords exWordlist ['a','b','c','d','e','f','g']
    ['g','a','b','c','d','e','f'] rfl (by decide) (by decide)

end Lexi
